import Mathlib

/-!
# Verification of the imagecurry HTTP file server

A shallow embedding, in Lean 4, of the request framing and validation
pipeline of the imagecurry repository (C sources `main.c`, `handlers.c`,
`http_response.c`, `utils.c`, the near-duplicate C++ variants, and the
single-file variant `a.c`).

Strings coming off the wire are modelled as `List Char` (one `Char` per
byte). The filesystem is modelled as a partial map from paths to file
records carrying a modification time and the file content; the success
path of each filesystem call is modelled (I/O error branches such as a
failing `fopen`/`fwrite`/`rename` depend on the environment and are not
reachable in the pure state model). Handlers additionally return the
ordered trace of filesystem actions they performed, which captures the
relative order of writes, renames, permission changes and responses.
-/

namespace ImageCurry

/-- `.data` of a string literal, used to write byte strings readably. -/
def chars (s : String) : List Char := s.data

/-! ## Configuration constants (`utils.h`, `handlers.h`, `main.c`) -/

def MAX_FILENAME_LEN : Nat := 255
def BUFFER_SIZE : Nat := 8192
def MAX_FILE_SIZE : Nat := 128 * 1024 * 1024
def MAX_REQUEST_SIZE : Nat := 128 * 1024 * 1024
def SERVE_DIR : List Char := chars "./serve"
def SAVE_DIR : List Char := chars "./save"

/-! ## C character classification (C locale, ASCII) -/

/-- `isalnum` in the C locale: ASCII digits and letters. -/
def c_isalnum (c : Char) : Bool :=
  ('0' ≤ c && c ≤ '9') || ('A' ≤ c && c ≤ 'Z') || ('a' ≤ c && c ≤ 'z')

/-- `isxdigit` in the C locale. -/
def c_isxdigit (c : Char) : Bool :=
  ('0' ≤ c && c ≤ '9') || ('A' ≤ c && c ≤ 'F') || ('a' ≤ c && c ≤ 'f')

/-- `isdigit` in the C locale. -/
def c_isdigit (c : Char) : Bool := '0' ≤ c && c ≤ '9'

/-- `isspace` in the C locale (also the whitespace skipped by `sscanf`). -/
def c_isspace (c : Char) : Bool :=
  c = ' ' || c = '\t' || c = '\n' || c = '\x0b' || c = '\x0c' || c = '\r'

/-! ## `strstr` / substring search

`strstr(hay, sub)` is modelled two ways: `containsList sub hay` is the
Boolean "found" result, and `findSuffix sub hay` returns the suffix of
`hay` beginning at the first occurrence (the returned pointer). -/

/-- Boolean result of `strstr hay sub ≠ NULL`. -/
def containsList (sub : List Char) : List Char → Bool
  | [] => sub.isEmpty
  | c :: t => sub.isPrefixOf (c :: t) || containsList sub t

/-- The suffix of the haystack beginning at the first occurrence of
`sub`, i.e. the pointer returned by `strstr`. -/
def findSuffix (sub : List Char) : List Char → Option (List Char)
  | [] => if sub.isEmpty then some [] else none
  | c :: t => if sub.isPrefixOf (c :: t) then some (c :: t) else findSuffix sub t

theorem containsList_append_right {sub l : List Char} (t : List Char)
    (h : containsList sub l = true) : containsList sub (l ++ t) = true := by
  induction l with
  | nil =>
    simp [containsList] at h
    simp [h, containsList]
    cases t with
    | nil => simp [containsList]
    | cons c u => simp [containsList, List.isPrefixOf, h]
  | cons c u ih =>
    simp only [containsList, Bool.or_eq_true] at h ⊢
    rcases h with h | h
    · exact Or.inl (List.isPrefixOf_iff_prefix.mpr
        ((List.isPrefixOf_iff_prefix.mp h).trans (List.prefix_append _ _)))
    · exact Or.inr (ih h)

theorem mem_of_containsList {sub l : List Char} (h : containsList sub l = true)
    {c : Char} (hc : c ∈ sub) : c ∈ l := by
  induction l with
  | nil =>
    simp [containsList, List.isEmpty_iff] at h
    subst h; cases hc
  | cons d t ih =>
    simp only [containsList, Bool.or_eq_true] at h
    rcases h with h | h
    · exact (List.isPrefixOf_iff_prefix.mp h).subset hc
    · exact List.mem_cons_of_mem d (ih h)

/-! ## Filename validation

`valid_filename` from `utils.c` (identical logic in `utils.cpp`), and
the variant from `a.c` which additionally allows at most one `'.'`. -/

/-- The per-character allow-list of `utils.c`'s loop:
alphanumeric, `'.'`, `'_'`, or `'-'`. -/
def allowedChar (c : Char) : Bool :=
  c_isalnum c || c = '.' || c = '_' || c = '-'

/-- `valid_filename` from `utils.c` lines 32–50 (and `utils.cpp` 43–61). -/
def valid_filename (name : List Char) : Bool :=
  match name with
  | [] => false
  | c0 :: _ =>
    if MAX_FILENAME_LEN < name.length then false
    else if c0 = '.' || c0 = '/' || c0 = '\\' then false
    else if containsList (chars "..") name then false
    else if name.contains '/' then false
    else if name.contains '\\' then false
    else name.all allowedChar

/-- The character loop of `a.c`'s `valid_filename` (lines 168–176),
threading the running `dot_count`. -/
def validLoopA : List Char → Nat → Bool
  | [], _ => true
  | c :: t, dots =>
    if c = '.' then
      if 1 < dots + 1 then false else validLoopA t (dots + 1)
    else if !(c_isalnum c || c = '_' || c = '-') then false
    else validLoopA t dots

/-- `valid_filename` from `a.c` lines 153–179: same prefix checks as the
`utils.c` variant, but the loop rejects a second `'.'`. -/
def valid_filename_a (name : List Char) : Bool :=
  match name with
  | [] => false
  | c0 :: _ =>
    if MAX_FILENAME_LEN < name.length then false
    else if c0 = '.' || c0 = '/' || c0 = '\\' then false
    else if containsList (chars "..") name then false
    else if name.contains '/' then false
    else if name.contains '\\' then false
    else validLoopA name 0

theorem validLoopA_all_allowed {l : List Char} {dots : Nat}
    (h : validLoopA l dots = true) : l.all allowedChar = true := by
  induction l generalizing dots with
  | nil => rfl
  | cons c t ih =>
    rw [validLoopA] at h
    by_cases hc : c = '.'
    · subst hc
      rw [if_pos rfl] at h
      by_cases hd : 1 < dots + 1
      · rw [if_pos hd] at h; cases h
      · rw [if_neg hd] at h
        simp only [List.all_cons, Bool.and_eq_true]
        exact ⟨by decide, ih h⟩
    · rw [if_neg hc] at h
      cases hg : (c_isalnum c || c = '_' || c = '-')
      · rw [hg] at h; simp at h
      · rw [hg] at h
        simp at h
        simp only [List.all_cons, Bool.and_eq_true]
        refine ⟨?_, ih h⟩
        simp only [Bool.or_eq_true, decide_eq_true_eq] at hg
        simp only [allowedChar, Bool.or_eq_true, decide_eq_true_eq]
        tauto

theorem valid_filename_true_shape {name : List Char}
    (h : valid_filename name = true) :
    name ≠ [] ∧ name.length ≤ MAX_FILENAME_LEN ∧
    (∀ c0, name.head? = some c0 → c0 ≠ '.' ∧ c0 ≠ '/' ∧ c0 ≠ '\\') ∧
    containsList (chars "..") name = false ∧
    '/' ∉ name ∧ '\\' ∉ name ∧ name.all allowedChar = true := by
  match name with
  | [] => exact absurd h (by simp [valid_filename])
  | c0 :: t =>
    rw [valid_filename] at h
    split at h; · exact absurd h (by simp)
    split at h; · exact absurd h (by simp)
    split at h; · exact absurd h (by simp)
    split at h; · exact absurd h (by simp)
    split at h; · exact absurd h (by simp)
    rename_i hlen hc0 hdots hslash hback
    refine ⟨by simp, by omega, ?_, by simpa using hdots, ?_, ?_, h⟩
    · intro c hc
      simp only [List.head?_cons, Option.some.injEq] at hc
      subst hc
      simp only [Bool.or_eq_true, decide_eq_true_eq, not_or] at hc0
      exact ⟨hc0.1.1, hc0.1.2, hc0.2⟩
    · simpa using hslash
    · simpa using hback

theorem valid_filename_a_true_shape {name : List Char}
    (h : valid_filename_a name = true) :
    name ≠ [] ∧ name.length ≤ MAX_FILENAME_LEN ∧
    (∀ c0, name.head? = some c0 → c0 ≠ '.' ∧ c0 ≠ '/' ∧ c0 ≠ '\\') ∧
    containsList (chars "..") name = false ∧
    '/' ∉ name ∧ '\\' ∉ name ∧ name.all allowedChar = true := by
  match name with
  | [] => exact absurd h (by simp [valid_filename_a])
  | c0 :: t =>
    rw [valid_filename_a] at h
    split at h; · exact absurd h (by simp)
    split at h; · exact absurd h (by simp)
    split at h; · exact absurd h (by simp)
    split at h; · exact absurd h (by simp)
    split at h; · exact absurd h (by simp)
    rename_i hlen hc0 hdots hslash hback
    refine ⟨by simp, by omega, ?_, by simpa using hdots, ?_, ?_,
      validLoopA_all_allowed h⟩
    · intro c hc
      simp only [List.head?_cons, Option.some.injEq] at hc
      subst hc
      simp only [Bool.or_eq_true, decide_eq_true_eq, not_or] at hc0
      exact ⟨hc0.1.1, hc0.1.2, hc0.2⟩
    · simpa using hslash
    · simpa using hback

/-- C1: the filename validators reject every unsafe name: empty names,
names longer than `MAX_FILENAME_LEN` (255), names whose first character
is `'.'`, `'/'` or `'\'`, names containing `".."`, `'/'` or `'\'`
anywhere, and names with any character outside the allow-list
(alphanumeric, `'.'`, `'_'`, `'-'`). Both the `utils.c`/`utils.cpp`
validator and the `a.c` validator reject all of these. -/
theorem filename_validator_rejects (name : List Char)
    (h : name = [] ∨ MAX_FILENAME_LEN < name.length ∨
      name.head? = some '.' ∨ name.head? = some '/' ∨ name.head? = some '\\' ∨
      containsList (chars "..") name = true ∨ '/' ∈ name ∨ '\\' ∈ name ∨
      ∃ c ∈ name, allowedChar c = false) :
    valid_filename name = false ∧ valid_filename_a name = false := by
  constructor
  · cases hval : valid_filename name
    · rfl
    · obtain ⟨hne, hlen, hhead, hdots, hs, hb, hall⟩ := valid_filename_true_shape hval
      rcases h with h | h | h | h | h | h | h | h | ⟨c, hc, hbad⟩
      · exact absurd h hne
      · omega
      · exact absurd rfl (hhead '.' h).1
      · exact absurd rfl (hhead '/' h).2.1
      · exact absurd rfl (hhead '\\' h).2.2
      · rw [h] at hdots; cases hdots
      · exact absurd h hs
      · exact absurd h hb
      · rw [List.all_eq_true] at hall
        rw [hall c hc] at hbad; cases hbad
  · cases hval : valid_filename_a name
    · rfl
    · obtain ⟨hne, hlen, hhead, hdots, hs, hb, hall⟩ := valid_filename_a_true_shape hval
      rcases h with h | h | h | h | h | h | h | h | ⟨c, hc, hbad⟩
      · exact absurd h hne
      · omega
      · exact absurd rfl (hhead '.' h).1
      · exact absurd rfl (hhead '/' h).2.1
      · exact absurd rfl (hhead '\\' h).2.2
      · rw [h] at hdots; cases hdots
      · exact absurd h hs
      · exact absurd h hb
      · rw [List.all_eq_true] at hall
        rw [hall c hc] at hbad; cases hbad

/-- Witness for C1 at the concrete name `"a/b"` (contains `'/'`). -/
theorem filename_validator_rejects_witness :
    valid_filename (chars "a/b") = false ∧ valid_filename_a (chars "a/b") = false :=
  filename_validator_rejects (chars "a/b")
    (Or.inr (Or.inr (Or.inr (Or.inr (Or.inr (Or.inr (Or.inl (by decide))))))))

theorem validLoopA_eq_all_of_count_le {l : List Char} {dots : Nat}
    (h : dots + l.count '.' ≤ 1) : validLoopA l dots = l.all allowedChar := by
  induction l generalizing dots with
  | nil => rfl
  | cons c t ih =>
    rw [validLoopA, List.all_cons]
    by_cases hc : c = '.'
    · subst hc
      rw [if_pos rfl]
      rw [List.count_cons_self] at h
      rw [if_neg (by omega)]
      rw [ih (by omega)]
      simp [allowedChar]
    · rw [if_neg hc]
      rw [List.count_cons_of_ne (Ne.symm hc)] at h
      cases hg : (c_isalnum c || c = '_' || c = '-')
      · have hal : allowedChar c = false := by
          simp only [Bool.or_eq_false_iff, decide_eq_false_iff_not] at hg
          simp only [allowedChar, Bool.or_eq_false_iff, decide_eq_false_iff_not]
          tauto
        simp [hal]
      · simp only [Bool.not_true]
        rw [if_neg (by simp)]
        rw [ih h]
        have hal : allowedChar c = true := by
          simp only [Bool.or_eq_true, decide_eq_true_eq] at hg
          simp only [allowedChar, Bool.or_eq_true, decide_eq_true_eq]
          tauto
        simp [hal]

/-- C8: the two filename-validation variants compute different
predicates. The name `"a.b.c"` — allowed characters only, valid length,
safe first character, two non-adjacent dots — is accepted by the
`utils.c` validator and rejected by the `a.c` validator; and on every
name containing at most one `'.'`, the two validators agree. -/
theorem filename_validators_differ :
    (valid_filename (chars "a.b.c") = true ∧
      valid_filename_a (chars "a.b.c") = false) ∧
    ∀ name : List Char, name.count '.' ≤ 1 →
      valid_filename name = valid_filename_a name := by
  refine ⟨by decide, ?_⟩
  intro name hcount
  match name with
  | [] => rfl
  | c0 :: t =>
    rw [valid_filename, valid_filename_a,
      validLoopA_eq_all_of_count_le (by omega)]

/-- Witness for C8's universal part at the single-dot name `"a.txt"`. -/
theorem filename_validators_differ_witness :
    valid_filename (chars "a.txt") = valid_filename_a (chars "a.txt") :=
  filename_validators_differ.2 (chars "a.txt") (by decide)

/-! ## printf-style numeral rendering

`snprintf` with `%lx` (hex, lowercase, no leading zeros) and `%ld`
(decimal). The executable definition `toBase` carries fuel so that it
reduces definitionally; `toBaseWF` is the fuel-free version used in
proofs, and the two are proved equal. -/

/-- The character printed for digit value `b` (`0`–`9`, then `a`–`f`). -/
def digitChar (b : Nat) : Char :=
  if b < 10 then Char.ofNat (48 + b) else Char.ofNat (87 + b)

def toBaseAux (base : Nat) : Nat → Nat → List Char → List Char
  | 0, _, acc => acc
  | fuel + 1, n, acc =>
    if n < base then digitChar n :: acc
    else toBaseAux base fuel (n / base) (digitChar (n % base) :: acc)

/-- Digit string of `n` in `base`, most significant digit first, `0`
rendered as `"0"` — the digit sequence printed by `printf`. -/
def toBase (base n : Nat) : List Char := toBaseAux base (n + 1) n []

/-- Fuel-free counterpart of `toBase`, for proofs. -/
def toBaseWF (base : Nat) (n : Nat) : List Char :=
  if _h : n < base ∨ base ≤ 1 then [digitChar n]
  else toBaseWF base (n / base) ++ [digitChar (n % base)]
termination_by n
decreasing_by exact Nat.div_lt_self (by omega) (by omega)

theorem toBaseAux_eq {base : Nat} (hb : 2 ≤ base) :
    ∀ fuel n acc, n < base ^ fuel → 1 ≤ fuel →
      toBaseAux base fuel n acc = toBaseWF base n ++ acc := by
  intro fuel
  induction fuel with
  | zero => omega
  | succ f ih =>
    intro n acc hn _
    rw [toBaseAux]
    by_cases h : n < base
    · rw [if_pos h, toBaseWF, dif_pos (Or.inl h)]
      rfl
    · rw [if_neg h]
      have hrec : n / base < base ^ f := by
        rw [Nat.div_lt_iff_lt_mul (by omega)]
        calc n < base ^ (f + 1) := hn
          _ = base ^ f * base := by ring
      have hf : 1 ≤ f := by
        rcases Nat.eq_zero_or_pos f with h0 | h1
        · subst h0
          simp only [pow_zero, Nat.lt_one_iff] at hrec
          have : 0 < n / base := Nat.div_pos (by omega) (by omega)
          omega
        · exact h1
      rw [ih (n / base) (digitChar (n % base) :: acc) hrec hf]
      conv_rhs => rw [toBaseWF, dif_neg (by omega)]
      simp

theorem toBase_eq_toBaseWF {base : Nat} (hb : 2 ≤ base) (n : Nat) :
    toBase base n = toBaseWF base n := by
  have hlt : n < base ^ (n + 1) := by
    calc n < 2 ^ n := Nat.lt_two_pow n
      _ ≤ 2 ^ (n + 1) := Nat.pow_le_pow_right (by omega) (by omega)
      _ ≤ base ^ (n + 1) := Nat.pow_le_pow_left hb _
  simpa using toBaseAux_eq hb (n + 1) n [] hlt (by omega)

/-- Decoding a digit character, inverse to `digitChar` below 16. -/
def digitVal (c : Char) : Nat :=
  if 97 ≤ c.toNat then c.toNat - 87 else c.toNat - 48

theorem digitVal_digitChar {k : Nat} (hk : k < 16) :
    digitVal (digitChar k) = k := by
  interval_cases k <;> decide

theorem foldl_digits_toBaseWF {base : Nat} (hb : 2 ≤ base) (hb16 : base ≤ 16)
    (n : Nat) :
    ∀ a, (toBaseWF base n).foldl (fun acc c => acc * base + digitVal c) a
      = a * base ^ (toBaseWF base n).length + n := by
  induction n using Nat.strong_induction_on with
  | _ n ih =>
    intro a
    rw [toBaseWF]
    by_cases h : n < base ∨ base ≤ 1
    · rw [dif_pos h]
      have hn : n < base := by omega
      simp [digitVal_digitChar (lt_of_lt_of_le hn hb16)]
    · rw [dif_neg h]
      push_neg at h
      rw [List.foldl_append,
        ih (n / base) (Nat.div_lt_self (by omega) (by omega)) a]
      simp only [List.foldl_cons, List.foldl_nil, List.length_append,
        List.length_singleton]
      rw [digitVal_digitChar (lt_of_lt_of_le (Nat.mod_lt _ (by omega)) hb16)]
      have hdm : base * (n / base) + n % base = n := Nat.div_add_mod n base
      calc (a * base ^ (toBaseWF base (n / base)).length + n / base) * base
            + n % base
          = a * (base ^ (toBaseWF base (n / base)).length * base)
            + (base * (n / base) + n % base) := by ring
        _ = a * base ^ ((toBaseWF base (n / base)).length + 1) + n := by
            rw [hdm, pow_succ]

theorem toBaseWF_inj {base : Nat} (hb : 2 ≤ base) (hb16 : base ≤ 16)
    {m m' : Nat} (h : toBaseWF base m = toBaseWF base m') : m = m' := by
  have h1 := foldl_digits_toBaseWF hb hb16 m 0
  have h2 := foldl_digits_toBaseWF hb hb16 m' 0
  rw [h] at h1
  omega

theorem toBaseWF_mem {base : Nat} (hb : 2 ≤ base) (hb16 : base ≤ 16)
    {n : Nat} {c : Char}
    (hc : c ∈ toBaseWF base n) : ∃ k, k < 16 ∧ c = digitChar k := by
  induction n using Nat.strong_induction_on with
  | _ n ih =>
    rw [toBaseWF] at hc
    by_cases h : n < base ∨ base ≤ 1
    · rw [dif_pos h] at hc
      simp only [List.mem_singleton] at hc
      subst hc
      exact ⟨n, by omega, rfl⟩
    · rw [dif_neg h] at hc
      rcases List.mem_append.mp hc with hc | hc
      · exact ih (n / base) (Nat.div_lt_self (by omega) (by omega)) hc
      · simp only [List.mem_singleton] at hc
        subst hc
        have := Nat.mod_lt n (show 0 < base by omega)
        exact ⟨n % base, by omega, rfl⟩

theorem not_mem_toBaseWF {base : Nat} (hb : 2 ≤ base) (hb16 : base ≤ 16)
    {n : Nat} {sep : Char} (hsep : ∀ k, k < 16 → sep ≠ digitChar k) :
    sep ∉ toBaseWF base n := by
  intro hmem
  obtain ⟨k, hk, hck⟩ := toBaseWF_mem hb hb16 hmem
  exact hsep k hk hck

theorem dash_ne_digitChar : ∀ k, k < 16 → ('-' : Char) ≠ digitChar k := by
  intro k hk
  interval_cases k <;> decide

theorem quote_ne_digitChar : ∀ k, k < 16 → ('"' : Char) ≠ digitChar k := by
  intro k hk
  interval_cases k <;> decide

theorem append_sep_cancel {sep : Char} {l1 : List Char} :
    ∀ {l2 r1 r2 : List Char}, sep ∉ l1 → sep ∉ l2 →
      l1 ++ sep :: r1 = l2 ++ sep :: r2 → l1 = l2 ∧ r1 = r2 := by
  induction l1 with
  | nil =>
    intro l2 r1 r2 h1 h2 h
    cases l2 with
    | nil => simpa using h
    | cons c t =>
      simp only [List.nil_append, List.cons_append, List.cons.injEq] at h
      exact absurd (h.1 ▸ List.mem_cons_self c t) (h.1 ▸ h2)
  | cons a t1 ih =>
    intro l2 r1 r2 h1 h2 h
    cases l2 with
    | nil =>
      simp only [List.cons_append, List.nil_append, List.cons.injEq] at h
      exact absurd (h.1 ▸ List.mem_cons_self a t1) (h.1 ▸ h1)
    | cons b t2 =>
      simp only [List.cons_append, List.cons.injEq] at h
      have hrec := ih (List.not_mem_of_not_mem_cons h1)
        (List.not_mem_of_not_mem_cons h2) h.2
      exact ⟨by rw [h.1, hrec.1], hrec.2⟩

/-! ## ETag generation -/

/-- Lowercase hex rendering, as printed by `%lx`. -/
def toHex (n : Nat) : List Char := toBase 16 n

/-- Decimal rendering, as printed by `%ld` or `operator<<`. -/
def toDec (n : Nat) : List Char := toBase 10 n

/-- `generate_etag` from `utils.c` lines 81–85:
`snprintf(out, size, "\"%lx-%lx\"", st_mtime, st_size)`. -/
def generate_etag (mtime size : Nat) : List Char :=
  '"' :: (toHex mtime ++ '-' :: (toHex size ++ ['"']))

/-- `generate_etag` from `utils.cpp` lines 99–103:
`oss << "\"" << st_mtime << "-" << st_size << "\""` (decimal). -/
def generate_etag_cpp (mtime size : Nat) : List Char :=
  '"' :: (toDec mtime ++ '-' :: (toDec size ++ ['"']))

theorem etag_core_inj {base : Nat} (hb : 2 ≤ base) (hb16 : base ≤ 16)
    {m s m' s' : Nat}
    (h : '"' :: (toBaseWF base m ++ '-' :: (toBaseWF base s ++ ['"']))
       = '"' :: (toBaseWF base m' ++ '-' :: (toBaseWF base s' ++ ['"']))) :
    m = m' ∧ s = s' := by
  have htail := (List.cons.inj h).2
  obtain ⟨h1, h2⟩ := append_sep_cancel
    (not_mem_toBaseWF hb hb16 dash_ne_digitChar)
    (not_mem_toBaseWF hb hb16 dash_ne_digitChar) htail
  have h3 := List.append_cancel_right h2
  exact ⟨toBaseWF_inj hb hb16 h1, toBaseWF_inj hb hb16 h3⟩

/-- C7: `generate_etag` is a deterministic pure function of the pair
(modification time, size), and is injective: two (mtime, size) pairs
produce the same ETag string exactly when they are equal. It follows
that an unchanged file yields the identical ETag on repeated GETs
(the handlers recompute it from the same `stat` data), and that the
ETag changes whenever the modification time or the size changes. This
holds for the hex encoding of `utils.c` and the decimal encoding of
`utils.cpp` alike. -/
theorem generate_etag_injective :
    ∀ mtime size mtime' size' : Nat,
      (generate_etag mtime size = generate_etag mtime' size' ↔
        (mtime = mtime' ∧ size = size')) ∧
      (generate_etag_cpp mtime size = generate_etag_cpp mtime' size' ↔
        (mtime = mtime' ∧ size = size')) := by
  intro mtime size mtime' size'
  constructor
  · constructor
    · intro h
      rw [generate_etag, generate_etag, toHex, toHex, toHex, toHex,
        toBase_eq_toBaseWF (by omega), toBase_eq_toBaseWF (by omega),
        toBase_eq_toBaseWF (by omega), toBase_eq_toBaseWF (by omega)] at h
      exact etag_core_inj (by omega) (by omega) h
    · rintro ⟨rfl, rfl⟩; rfl
  · constructor
    · intro h
      rw [generate_etag_cpp, generate_etag_cpp, toDec, toDec, toDec, toDec,
        toBase_eq_toBaseWF (by omega), toBase_eq_toBaseWF (by omega),
        toBase_eq_toBaseWF (by omega), toBase_eq_toBaseWF (by omega)] at h
      exact etag_core_inj (by omega) (by omega) h
    · rintro ⟨rfl, rfl⟩; rfl

/-! ## HTTP dates (`format_http_date`: `gmtime_r` + `strftime`
`"%a, %d %b %Y %H:%M:%S GMT"`), for nonnegative epoch seconds. -/

/-- Civil date `(year, month, day)` from days since 1970-01-01
(the standard Gregorian conversion used by `gmtime`). -/
def civilFromDays (days : Nat) : Nat × Nat × Nat :=
  let z := days + 719468
  let era := z / 146097
  let doe := z % 146097
  let yoe := (doe - doe / 1460 + doe / 36524 - doe / 146096) / 365
  let y := yoe + era * 400
  let doy := doe - (365 * yoe + yoe / 4 - yoe / 100)
  let mp := (5 * doy + 2) / 153
  let d := doy - (153 * mp + 2) / 5 + 1
  let m := if mp < 10 then mp + 3 else mp - 9
  (if m ≤ 2 then y + 1 else y, m, d)

def weekdayName (w : Nat) : List Char :=
  match w with
  | 0 => chars "Sun" | 1 => chars "Mon" | 2 => chars "Tue" | 3 => chars "Wed"
  | 4 => chars "Thu" | 5 => chars "Fri" | _ => chars "Sat"

def monthName (m : Nat) : List Char :=
  match m with
  | 1 => chars "Jan" | 2 => chars "Feb" | 3 => chars "Mar" | 4 => chars "Apr"
  | 5 => chars "May" | 6 => chars "Jun" | 7 => chars "Jul" | 8 => chars "Aug"
  | 9 => chars "Sep" | 10 => chars "Oct" | 11 => chars "Nov" | _ => chars "Dec"

/-- Zero-padded two-digit field (`%d`, `%H`, `%M`, `%S`). -/
def pad2 (n : Nat) : List Char :=
  if n < 10 then '0' :: toDec n else toDec n

/-- `format_http_date` from `utils.c` lines 75–79 / `utils.cpp` 89–96:
RFC 1123 date of epoch second `t`, e.g. `"Thu, 01 Jan 1970 00:00:00 GMT"`. -/
def format_http_date (t : Nat) : List Char :=
  let days := t / 86400
  let rem := t % 86400
  let ymd := civilFromDays days
  weekdayName ((days + 4) % 7) ++ chars ", " ++ pad2 ymd.2.2 ++ [' '] ++
    monthName ymd.2.1 ++ [' '] ++ toDec ymd.1 ++ [' '] ++
    pad2 (rem / 3600) ++ [':'] ++ pad2 (rem % 3600 / 60) ++ [':'] ++
    pad2 (rem % 60) ++ chars " GMT"

/-! ## HTTP responses (`http_response.c`)

A `Response` records the status line, the `Content-Type`, the
per-response extra headers (the `%s` slot of `send_response`), and the
body bytes. The CORS headers, `Content-Length` and `Connection: close`
are emitted identically for every response and are left implicit. -/

structure Response where
  status : Nat
  statusText : List Char
  contentType : List Char
  extraHeaders : List Char
  body : List Char
deriving DecidableEq, Repr

/-- `send_response` from `http_response.c` lines 15–34. -/
def send_response (code : Nat) (status contentType extra body : List Char) :
    Response :=
  ⟨code, status, contentType, extra, body⟩

/-- The status text chosen by `send_error`'s `switch`. -/
def errorStatusText (code : Nat) : List Char :=
  if code = 400 then chars "Bad Request"
  else if code = 404 then chars "Not Found"
  else if code = 413 then chars "Payload Too Large"
  else if code = 500 then chars "Internal Server Error"
  else if code = 501 then chars "Not Implemented"
  else chars "Error"

/-- `send_error` from `http_response.c` lines 36–53: an HTML body
`<html><body><h1>code status</h1><p>message</p></body></html>`. -/
def send_error (code : Nat) (message : List Char) : Response :=
  send_response code (errorStatusText code) (chars "text/html") []
    (chars "<html><body><h1>" ++ toDec code ++ [' '] ++ errorStatusText code ++
      chars "</h1><p>" ++ message ++ chars "</p></body></html>")

/-- `send_not_modified` from `http_response.c` lines 55–64: a 304 with
`ETag`, `Last-Modified` and `Cache-Control` extra headers and no body. -/
def send_not_modified (etag lastModified : List Char) : Response :=
  send_response 304 (chars "Not Modified") (chars "text/plain")
    (chars "ETag: " ++ etag ++ chars "\r\nLast-Modified: " ++ lastModified ++
      chars "\r\nCache-Control: public, max-age=31536000, immutable\r\n") []

/-! ## Filesystem model

A file is its content plus the modification time `stat` would report;
`st_size` is the content length. The filesystem is a partial map from
paths (byte strings) to files. Handlers also report the ordered list
of mutating filesystem calls they made. -/

structure FileInfo where
  mtime : Nat
  content : List Char
deriving DecidableEq, Repr

def FS : Type := List Char → Option FileInfo

def fsEmpty : FS := fun _ => none

/-- Creating/overwriting a file (`fopen`+`fwrite`+`fclose` success path). -/
def fsWrite (fs : FS) (p : List Char) (fi : FileInfo) : FS :=
  fun q => if q = p then some fi else fs q

/-- `rename(src, dst)`: `dst` gets `src`'s file, `src` disappears. -/
def fsRename (fs : FS) (src dst : List Char) : FS :=
  fun q => if q = dst then fs src else if q = src then none else fs q

/-- One mutating filesystem call made by a handler. -/
inductive FsAction where
  | write (path : List Char) (fi : FileInfo)
  | rename (src dst : List Char)
  | chmod (path : List Char) (mode : Nat)
deriving DecidableEq, Repr

/-- `build_serve_path` from `utils.c`: `"./serve/" ++ filename`. -/
def build_serve_path (filename : List Char) : List Char :=
  SERVE_DIR ++ '/' :: filename

/-- `build_save_path` from `utils.c`: `"./save/" ++ filename`. -/
def build_save_path (filename : List Char) : List Char :=
  SAVE_DIR ++ '/' :: filename

/-! ## URL decoding and query parameters (`utils.c` lines 10–73) -/

/-- The value of a hex digit as computed by `url_decode`'s
uppercase-then-subtract arithmetic. -/
def hexDigitVal (c : Char) : Nat :=
  if 'a' ≤ c then c.toNat - 87
  else if 'A' ≤ c then c.toNat - 55
  else c.toNat - 48

def url_decodeAux : Nat → List Char → List Char
  | 0, _ => []
  | _ + 1, [] => []
  | fuel + 1, '%' :: t =>
    match t with
    | a :: b :: t' =>
      if c_isxdigit a && c_isxdigit b then
        Char.ofNat (16 * hexDigitVal a + hexDigitVal b) :: url_decodeAux fuel t'
      else '%' :: url_decodeAux fuel t
    | _ => '%' :: url_decodeAux fuel t
  | fuel + 1, '+' :: t => ' ' :: url_decodeAux fuel t
  | fuel + 1, c :: t => c :: url_decodeAux fuel t

/-- `url_decode` from `utils.c` lines 10–30: `%XX` → byte, `+` → space;
a `%` not followed by two hex digits is copied as-is and scanning
resumes at the next character. Each loop iteration consumes at least
one input character, so the input length is sufficient fuel. -/
def url_decode (l : List Char) : List Char := url_decodeAux l.length l

/-- `get_query_param` from `utils.c` lines 52–73, with the destination
buffer size of its callers (`MAX_FILENAME_LEN + 1`): find `key=`, take
up to the next space/`&`/CR/LF, reject empty or oversized values,
percent-decode. -/
def get_query_param (query key : List Char) : Option (List Char) :=
  match findSuffix (key ++ ['=']) query with
  | none => none
  | some suffix =>
    let start := suffix.drop (key.length + 1)
    let v := start.takeWhile fun c => !(c = ' ' || c = '&' || c = '\r' || c = '\n')
    if v.length = 0 ∨ MAX_FILENAME_LEN + 1 ≤ v.length then none
    else some (url_decode v)

/-! ## Content types (`get_content_type`, `utils.c` lines 87–108) -/

/-- The suffix after the last `'.'` (`strrchr(filename, '.') + 1`),
or `none` when there is no dot. -/
def afterLastDot? : List Char → Option (List Char)
  | [] => none
  | c :: t =>
    match afterLastDot? t with
    | some e => some e
    | none => if c = '.' then some t else none

/-- ASCII lowercasing, as `strcasecmp` compares. -/
def toLowerAscii (c : Char) : Char :=
  if 'A' ≤ c && c ≤ 'Z' then Char.ofNat (c.toNat + 32) else c

/-- `get_content_type` from `utils.c` lines 87–108: MIME type from the
extension after the last dot, compared case-insensitively. -/
def get_content_type (filename : List Char) : List Char :=
  match afterLastDot? filename with
  | none => chars "application/octet-stream"
  | some ext =>
    let e := ext.map toLowerAscii
    if e = chars "txt" then chars "text/plain"
    else if e = chars "html" then chars "text/html"
    else if e = chars "css" then chars "text/css"
    else if e = chars "js" then chars "application/javascript"
    else if e = chars "json" then chars "application/json"
    else if e = chars "xml" then chars "application/xml"
    else if e = chars "pdf" then chars "application/pdf"
    else if e = chars "jpg" ∨ e = chars "jpeg" then chars "image/jpeg"
    else if e = chars "png" then chars "image/png"
    else if e = chars "gif" then chars "image/gif"
    else if e = chars "svg" then chars "image/svg+xml"
    else if e = chars "zip" then chars "application/zip"
    else chars "application/octet-stream"

/-! ## Request handlers (`handlers.c`) -/

/-- Result of a state-changing handler: the response sent, the final
filesystem, and the ordered trace of mutating filesystem calls. -/
structure HandlerResult where
  response : Response
  fs : FS
  trace : List FsAction

/-- `handle_get` from `handlers.c` lines 37–133: look up the file in
the serve directory (404 if absent), compute `Last-Modified` and the
ETag, answer 304 when the raw header block contains `If-None-Match:`
followed (at or after that position) by the current ETag, or
`If-Modified-Since:` followed by the current `Last-Modified` string;
otherwise stream the file with a 200. `request` is the raw buffer the
headers were read into. -/
def handle_get (fs : FS) (request filename : List Char) : Response :=
  match fs (build_serve_path filename) with
  | none => send_error 404 (chars "File not found")
  | some fi =>
    let lastModified := format_http_date fi.mtime
    let etag := generate_etag fi.mtime fi.content.length
    let inmHit :=
      match findSuffix (chars "If-None-Match:") request with
      | some suffix => containsList etag suffix
      | none => false
    if inmHit then send_not_modified etag lastModified
    else
      let imsHit :=
        match findSuffix (chars "If-Modified-Since:") request with
        | some suffix => containsList lastModified suffix
        | none => false
      if imsHit then send_not_modified etag lastModified
      else
        send_response 200 (chars "OK") (get_content_type filename)
          (chars "Last-Modified: " ++ lastModified ++ chars "\r\nETag: " ++
            etag ++ chars "\r\nCache-Control: public, max-age=31536000, immutable\r\n")
          fi.content

/-- `handle_post` from `handlers.c` lines 181–259 (success path of the
filesystem calls): reject oversized bodies with 413 before touching the
disk; otherwise write the body to `<save path>.tmp`, publish it with
`rename`, `chmod` it to `0600`, and only then check for an extension —
a dotless name gets a 400 `"Filename must have extension"` even though
the file is already committed; a dotted name gets the 200 JSON success
response (the background webp compression is an external process whose
effects the server never observes, and is not part of the state). -/
def handle_post (fs : FS) (filename body : List Char) (now : Nat) :
    HandlerResult :=
  if MAX_FILE_SIZE < body.length then
    ⟨send_error 413 (chars "File too large"), fs, []⟩
  else
    let filepath := build_save_path filename
    let temppath := filepath ++ chars ".tmp"
    let fi : FileInfo := ⟨now, body⟩
    let fs2 := fsRename (fsWrite fs temppath fi) temppath filepath
    let trace := [FsAction.write temppath fi,
      FsAction.rename temppath filepath, FsAction.chmod filepath 0o600]
    if '.' ∈ filename then
      ⟨send_response 200 (chars "OK") (chars "application/json") []
        (chars "\x7b\"status\":\"success\"\x7d"), fs2, trace⟩
    else
      ⟨send_error 400 (chars "Filename must have extension"), fs2, trace⟩

/-- `handle_head` from `handlers.c` lines 261–306: like a 200 GET but
with no body bytes sent. -/
def handle_head (fs : FS) (filename : List Char) : Response :=
  match fs (build_serve_path filename) with
  | none => send_error 404 (chars "File not found")
  | some fi =>
    let lastModified := format_http_date fi.mtime
    let etag := generate_etag fi.mtime fi.content.length
    send_response 200 (chars "OK") (get_content_type filename)
      (chars "Last-Modified: " ++ lastModified ++ chars "\r\nETag: " ++
        etag ++ chars "\r\nCache-Control: public, max-age=31536000, immutable\r\n")
      []

/-- `handle_options` from `handlers.c` lines 18–35: CORS preflight,
204, no body. -/
def handle_options : Response :=
  send_response 204 (chars "No Content") [] [] []

/-! ## Request framing (`process_request`, `main.c` lines 49–188)

The network is modelled as the list of byte chunks successive `recv`
calls deliver; an empty chunk models `recv` returning `0` or an error
(peer gone / timeout). When a chunk is longer than the buffer space
`recv` was asked to fill, the unread remainder stays queued, as in a
TCP receive buffer. -/

def CRLF2 : List Char := chars "\r\n\r\n"

inductive FrameResult where
  | abandoned
  | tooLarge (buf : List Char) (rest : List (List Char))
  | framed (buf : List Char) (rest : List (List Char))
deriving DecidableEq, Repr

/-- The header-read loop of `process_request` (`main.c` lines 59–75):
`recv` into a `BUFFER_SIZE` buffer, keeping one byte for the NUL
terminator, until `strstr` finds `"\r\n\r\n"` or the buffer is full.
`abandoned` models `recv` returning `≤ 0` (the request is dropped with
no response); `tooLarge` is a full buffer without the terminator;
`framed` carries the buffered bytes and the unread chunks. -/
def readHeader : List (List Char) → List Char → FrameResult
  | [], _ => .abandoned
  | c :: rest, buf =>
    if c.isEmpty then .abandoned
    else if BUFFER_SIZE - 1 - buf.length ≤ c.length then
      if containsList CRLF2 (buf ++ c.take (BUFFER_SIZE - 1 - buf.length)) then
        .framed (buf ++ c.take (BUFFER_SIZE - 1 - buf.length))
          (if (c.drop (BUFFER_SIZE - 1 - buf.length)).isEmpty then rest
           else c.drop (BUFFER_SIZE - 1 - buf.length) :: rest)
      else
        .tooLarge (buf ++ c.take (BUFFER_SIZE - 1 - buf.length))
          (if (c.drop (BUFFER_SIZE - 1 - buf.length)).isEmpty then rest
           else c.drop (BUFFER_SIZE - 1 - buf.length) :: rest)
    else if containsList CRLF2 (buf ++ c) then .framed (buf ++ c) rest
    else readHeader rest (buf ++ c)

/-- The body-read loop of `process_request` (`main.c` lines 158–169):
starting from the bytes already read past the header terminator, `recv`
until `contentLength` bytes are collected; `none` models `recv`
returning `≤ 0` (request aborted, no response). If the initial bytes
already meet or exceed the declared length the loop body never runs and
the whole prefix is kept, exactly as in the C code. -/
def readBody (need : Nat) : List (List Char) → List Char →
    Option (List Char × List (List Char))
  | chunks, acc =>
    if need ≤ acc.length then some (acc, chunks)
    else
      match chunks with
      | [] => none
      | c :: rest =>
        if c.isEmpty then none
        else
          let ask := need - acc.length
          if ask ≤ c.length then
            some (acc ++ c.take ask,
              if (c.drop ask).isEmpty then rest else (c.drop ask) :: rest)
          else readBody need rest (acc ++ c)

/-- `atol`: skip leading whitespace, optional sign, leading digits. -/
def atol (s : List Char) : Int :=
  let digitsOf : List Char → Nat := fun t =>
    (t.takeWhile c_isdigit).foldl (fun a c => a * 10 + (c.toNat - 48)) 0
  match s.dropWhile c_isspace with
  | '-' :: t => - (digitsOf t : Int)
  | '+' :: t => (digitsOf t : Int)
  | t => (digitsOf t : Int)

/-- The conversion of `atol`'s `long` result to `size_t`
(`size_t content_length = atol(...)`). -/
def toSizeT (i : Int) : Nat := (i % (2 ^ 64)).toNat

/-- One `%Ns` conversion of `sscanf`: skip whitespace, then take up to
`width` non-whitespace characters; fails at end of input. -/
def scanToken (width : Nat) (s : List Char) :
    Option (List Char × List Char) :=
  let s' := s.dropWhile c_isspace
  if s'.isEmpty then none
  else
    let tok := (s'.takeWhile fun c => !c_isspace c).take width
    some (tok, s'.drop tok.length)

/-- `sscanf(header_buf, "%15s %511s %15s", method, path, version)`
(`main.c` line 88): fails unless all three tokens match. -/
def parseRequestLine (buf : List Char) :
    Option (List Char × List Char × List Char) :=
  match scanToken 15 buf with
  | none => none
  | some (m, r1) =>
    match scanToken 511 r1 with
    | none => none
    | some (p, r2) =>
      match scanToken 15 r2 with
      | none => none
      | some (v, _) => some (m, p, v)

/-- `strchr(path, '?')` split: the path before the query, and the query
string after `'?'` when present. -/
def splitQuery (path : List Char) : List Char × Option (List Char) :=
  let pre := path.takeWhile (· ≠ '?')
  if pre.length = path.length then (path, none)
  else (pre, some (path.drop (pre.length + 1)))

/-- The bytes already read past the header terminator in the same
buffer (`header_end + 4` up to `received`). -/
def bytesAfterHeader (buf : List Char) : List Char :=
  match findSuffix CRLF2 buf with
  | some s => s.drop 4
  | none => []

/-- Result of one connection: the response sent (`none` when the
request was dropped without a response), the final filesystem, the
filesystem actions performed, and the chunks never received. -/
structure ProcResult where
  response : Option Response
  fs : FS
  trace : List FsAction
  rest : List (List Char)

/-- The method dispatch at `main.c` lines 174–185. -/
def dispatch (fs : FS) (buf filename body method : List Char)
    (rest : List (List Char)) (now : Nat) : ProcResult :=
  if method = chars "GET" then ⟨some (handle_get fs buf filename), fs, [], rest⟩
  else if method = chars "POST" then
    let r := handle_post fs filename body now
    ⟨some r.response, r.fs, r.trace, rest⟩
  else if method = chars "HEAD" then ⟨some (handle_head fs filename), fs, [], rest⟩
  else ⟨some (send_error 501 (chars "Method not implemented")), fs, [], rest⟩

/-- `process_request` from `main.c` lines 49–188: frame the header
block, parse and validate the request line, resolve and validate the
`name` query parameter, bound the declared `Content-Length`, read the
body, and dispatch. `now` is the clock used as the modification time
of files written during the request. -/
def process_request (fs : FS) (now : Nat) (chunks : List (List Char)) :
    ProcResult :=
  match readHeader chunks [] with
  | .abandoned => ⟨none, fs, [], []⟩
  | .tooLarge _ rest =>
    ⟨some (send_error 400 (chars "Headers too large or malformed")), fs, [], rest⟩
  | .framed buf rest =>
    match parseRequestLine buf with
    | none => ⟨some (send_error 400 (chars "Malformed request")), fs, [], rest⟩
    | some (method, path, version) =>
      if version = chars "HTTP/1.1" ∨ version = chars "HTTP/1.0" then
        if method = chars "OPTIONS" then ⟨some handle_options, fs, [], rest⟩
        else
          let pq := splitQuery path
          if pq.1 = ['/'] then
            match pq.2 with
            | none =>
              ⟨some (send_error 400 (chars "Missing \x27name\x27 parameter")),
                fs, [], rest⟩
            | some q =>
              match get_query_param q (chars "name") with
              | none =>
                ⟨some (send_error 400 (chars "Missing \x27name\x27 parameter")),
                  fs, [], rest⟩
              | some filename =>
                if valid_filename filename then
                  match findSuffix (chars "Content-Length:") buf with
                  | none => dispatch fs buf filename [] method rest now
                  | some cl =>
                    let contentLength := toSizeT (atol (cl.drop 15))
                    if MAX_REQUEST_SIZE < contentLength then
                      ⟨some (send_error 413 (chars "Payload Too Large")),
                        fs, [], rest⟩
                    else if contentLength = 0 then
                      dispatch fs buf filename [] method rest now
                    else
                      match readBody contentLength rest (bytesAfterHeader buf) with
                      | none => ⟨none, fs, [], []⟩
                      | some (body, rest') =>
                        dispatch fs buf filename body method rest' now
                else
                  ⟨some (send_error 400 (chars "Invalid filename")), fs, [], rest⟩
          else
            ⟨some (send_error 400 (chars "Invalid path - only / is supported")),
              fs, [], rest⟩
      else
        ⟨some (send_error 400 (chars "Invalid HTTP version")), fs, [], rest⟩

/-! ## Header overflow (claims about the framing loop) -/

theorem containsList_eq_false_of_append {sub l t : List Char}
    (h : containsList sub (l ++ t) = false) : containsList sub l = false := by
  cases hl : containsList sub l
  · rfl
  · rw [containsList_append_right t hl] at h; cases h

/-- If the first `BUFFER_SIZE - 1` bytes the peer supplies contain no
`"\r\n\r\n"` and at least that many bytes arrive (in nonempty chunks),
the header loop fills the buffer and stops with `tooLarge`. -/
theorem readHeader_tooLarge_of_no_terminator :
    ∀ (chunks : List (List Char)) (buf : List Char),
      (∀ c ∈ chunks, c ≠ []) →
      buf.length < BUFFER_SIZE - 1 →
      BUFFER_SIZE - 1 ≤ buf.length + chunks.flatten.length →
      containsList CRLF2 ((buf ++ chunks.flatten).take (BUFFER_SIZE - 1)) = false →
      ∃ r, readHeader chunks buf =
        .tooLarge ((buf ++ chunks.flatten).take (BUFFER_SIZE - 1)) r := by
  intro chunks
  induction chunks with
  | nil =>
    intro buf _ h1 h2 _
    simp only [List.flatten_nil, List.length_nil] at h2
    omega
  | cons c rest ih =>
    intro buf hne h1 h2 h3
    rw [readHeader]
    have hcne : c ≠ [] := hne c (List.mem_cons_self ..)
    rw [if_neg (by simpa [List.isEmpty_iff] using hcne)]
    by_cases hlen : BUFFER_SIZE - 1 - buf.length ≤ c.length
    · rw [if_pos hlen]
      have hbuf' : (buf ++ (c :: rest).flatten).take (BUFFER_SIZE - 1) =
          buf ++ c.take (BUFFER_SIZE - 1 - buf.length) := by
        rw [List.flatten_cons, List.take_append_eq_append_take,
          List.take_of_length_le (le_of_lt h1),
          List.take_append_eq_append_take,
          Nat.sub_eq_zero_of_le hlen, List.take_zero, List.append_nil]
      rw [hbuf'] at h3
      rw [h3]
      simp only [Bool.false_eq_true, if_false]
      exact ⟨_, by rw [hbuf']⟩
    · rw [if_neg hlen]
      push_neg at hlen
      have hassoc : buf ++ (c :: rest).flatten = (buf ++ c) ++ rest.flatten := by
        rw [List.flatten_cons, List.append_assoc]
      have h3' : containsList CRLF2
          (((buf ++ c) ++ rest.flatten).take (BUFFER_SIZE - 1)) = false := by
        rw [← hassoc]; exact h3
      have hsmall : (buf ++ c).length < BUFFER_SIZE - 1 := by
        rw [List.length_append]; omega
      have hnc : containsList CRLF2 (buf ++ c) = false := by
        apply containsList_eq_false_of_append (t := rest.flatten.take
          (BUFFER_SIZE - 1 - (buf ++ c).length))
        rw [List.take_append_eq_append_take,
          List.take_of_length_le (le_of_lt hsmall)] at h3'
        exact h3'
      rw [hnc]
      simp only [Bool.false_eq_true, if_false]
      have hrec := ih (buf ++ c) (fun x hx => hne x (List.mem_cons_of_mem c hx))
        hsmall
        (by rw [List.length_append]
            simp only [List.flatten_cons, List.length_append] at h2 ⊢
            omega)
        h3'
      obtain ⟨r, hr⟩ := hrec
      refine ⟨r, ?_⟩
      rw [hr, hassoc]

theorem process_request_tooLarge {chunks : List (List Char)} {b : List Char}
    {r : List (List Char)} (fs : FS) (now : Nat)
    (h : readHeader chunks [] = .tooLarge b r) :
    process_request fs now chunks =
      ⟨some (send_error 400 (chars "Headers too large or malformed")), fs, [], r⟩ := by
  simp only [process_request, h]

theorem not_containsList_CRLF2_replicate (k : Nat) :
    containsList CRLF2 (List.replicate k 'a') = false := by
  cases h : containsList CRLF2 (List.replicate k 'a')
  · rfl
  · have hm := mem_of_containsList h (show '\r' ∈ CRLF2 by decide)
    exact absurd (List.eq_of_mem_replicate hm) (by decide)

/-- C4: for every connection whose incoming bytes fill the fixed-size
read buffer (`BUFFER_SIZE - 1` bytes, one reserved for the NUL) without
containing the terminator `"\r\n\r\n"`, the server sends an HTTP 400
response of the `HeaderTooLarge` class (`"Headers too large or
malformed"`). The statement holds for arbitrarily long incoming
streams: the buffer is a fixed constant and is never grown, so only the
first `BUFFER_SIZE - 1` bytes decide the outcome. -/
theorem header_overflow_400 (fs : FS) (now : Nat) (chunks : List (List Char))
    (hne : ∀ c ∈ chunks, c ≠ [])
    (hlen : BUFFER_SIZE - 1 ≤ chunks.flatten.length)
    (hterm : containsList CRLF2 (chunks.flatten.take (BUFFER_SIZE - 1)) = false) :
    (process_request fs now chunks).response =
      some (send_error 400 (chars "Headers too large or malformed")) ∧
    (process_request fs now chunks).response.map Response.status = some 400 := by
  obtain ⟨r, hr⟩ := readHeader_tooLarge_of_no_terminator chunks [] hne
    (by simp [BUFFER_SIZE]) (by simpa using hlen) (by simpa using hterm)
  rw [process_request_tooLarge fs now hr]
  exact ⟨rfl, rfl⟩

theorem flatten_single_chunk :
    ([List.replicate 8191 'a'] : List (List Char)).flatten
      = List.replicate 8191 'a' := by
  rw [List.flatten_cons, List.flatten_nil, List.append_nil]

theorem single_chunk_ne_nil :
    ∀ c ∈ ([List.replicate 8191 'a'] : List (List Char)), c ≠ [] := by
  intro c hc
  rw [List.mem_singleton] at hc
  subst hc
  apply List.ne_nil_of_length_pos
  rw [List.length_replicate]
  omega

theorem single_chunk_fills_buffer :
    BUFFER_SIZE - 1 ≤
      ([List.replicate 8191 'a'] : List (List Char)).flatten.length := by
  rw [flatten_single_chunk, List.length_replicate]
  decide

theorem single_chunk_no_terminator :
    containsList CRLF2
      (([List.replicate 8191 'a'] : List (List Char)).flatten.take
        (BUFFER_SIZE - 1)) = false := by
  rw [flatten_single_chunk, List.take_replicate]
  exact not_containsList_CRLF2_replicate _

/-- Witness for C4: a single 8191-byte chunk of `'a'`s. -/
theorem header_overflow_400_witness :
    (process_request fsEmpty 0 [List.replicate 8191 'a']).response =
      some (send_error 400 (chars "Headers too large or malformed")) ∧
    (process_request fsEmpty 0 [List.replicate 8191 'a']).response.map
      Response.status = some 400 :=
  header_overflow_400 fsEmpty 0 [List.replicate 8191 'a']
    single_chunk_ne_nil single_chunk_fills_buffer single_chunk_no_terminator

/-- C5 counterexample: on the concrete connection delivering 8191 `'a'`
bytes — the buffer fills without the terminator — the server does send
response bytes (the 400 error), so the request is not discarded with
"no response". -/
theorem header_overflow_counterexample :
    (process_request fsEmpty 0 [List.replicate 8191 'a']).response ≠ none := by
  obtain ⟨r, hr⟩ := readHeader_tooLarge_of_no_terminator
    [List.replicate 8191 'a'] []
    single_chunk_ne_nil
    (by rw [List.length_nil]; decide)
    (by rw [List.length_nil, Nat.zero_add]; exact single_chunk_fills_buffer)
    (by rw [List.nil_append]; exact single_chunk_no_terminator)
  rw [process_request_tooLarge fsEmpty 0 hr]
  simp

/-- C5 amended: when the buffer fills without the terminator the
request is not processed further and the connection is then closed, but
it is not silently discarded: a 400 `"Headers too large or malformed"`
response is sent first, and no filesystem action is taken. (A silent
drop — connection closed with no response — happens only when `recv`
itself fails or the peer disconnects.) -/
theorem header_overflow_response_sent (fs : FS) (now : Nat)
    (chunks : List (List Char))
    (hne : ∀ c ∈ chunks, c ≠ [])
    (hlen : BUFFER_SIZE - 1 ≤ chunks.flatten.length)
    (hterm : containsList CRLF2 (chunks.flatten.take (BUFFER_SIZE - 1)) = false) :
    (process_request fs now chunks).response.isSome = true ∧
    (process_request fs now chunks).response =
      some (send_error 400 (chars "Headers too large or malformed")) ∧
    (process_request fs now chunks).trace = [] ∧
    (process_request fs now chunks).fs = fs := by
  obtain ⟨r, hr⟩ := readHeader_tooLarge_of_no_terminator chunks [] hne
    (by simp [BUFFER_SIZE]) (by simpa using hlen) (by simpa using hterm)
  rw [process_request_tooLarge fs now hr]
  exact ⟨rfl, rfl, rfl, rfl⟩

/-- Witness for C5's amended theorem, same concrete connection. -/
theorem header_overflow_response_sent_witness :
    (process_request fsEmpty 0 [List.replicate 8191 'a']).response.isSome = true ∧
    (process_request fsEmpty 0 [List.replicate 8191 'a']).response =
      some (send_error 400 (chars "Headers too large or malformed")) ∧
    (process_request fsEmpty 0 [List.replicate 8191 'a']).trace = [] ∧
    (process_request fsEmpty 0 [List.replicate 8191 'a']).fs = fsEmpty :=
  header_overflow_response_sent fsEmpty 0 [List.replicate 8191 'a']
    single_chunk_ne_nil single_chunk_fills_buffer single_chunk_no_terminator

/-! ## Payload size gate (`main.c` lines 135–141) -/

/-- The declared `Content-Length` of a raw header block exactly as
`process_request` extracts it: `strstr` for `"Content-Length:"`, then
`atol` of what follows, cast to `size_t`. -/
def declaredContentLength (buf : List Char) : Option Nat :=
  (findSuffix (chars "Content-Length:") buf).map fun s => toSizeT (atol (s.drop 15))

/-- C3 (amended): for every POST request that passes request-line,
path, and filename validation and whose declared `Content-Length`
exceeds `MAX_REQUEST_SIZE`, the server responds 413 Payload Too Large,
reads no body bytes beyond those already buffered while framing the
header (the unread chunks `rest` are returned untouched), and performs
no filesystem action — neither the temporary nor the final file is
created. -/
theorem post_payload_too_large (fs : FS) (now : Nat) (chunks : List (List Char))
    (buf path version q filename cl : List Char) (rest : List (List Char))
    (hframe : readHeader chunks [] = .framed buf rest)
    (hparse : parseRequestLine buf = some (chars "POST", path, version))
    (hver : version = chars "HTTP/1.1" ∨ version = chars "HTTP/1.0")
    (hsplit : splitQuery path = (['/'], some q))
    (hname : get_query_param q (chars "name") = some filename)
    (hvalid : valid_filename filename = true)
    (hcl : findSuffix (chars "Content-Length:") buf = some cl)
    (hbig : MAX_REQUEST_SIZE < toSizeT (atol (cl.drop 15))) :
    process_request fs now chunks =
      ⟨some (send_error 413 (chars "Payload Too Large")), fs, [], rest⟩ := by
  simp only [process_request, hframe, hparse]
  rw [if_pos hver]
  rw [if_neg (show ¬(chars "POST" = chars "OPTIONS") by decide)]
  simp only [hsplit]
  rw [if_pos trivial]
  simp only [hname]
  rw [hvalid, if_pos rfl]
  simp only [hcl]
  rw [if_pos hbig]

/-- Witness for C3's amended theorem at a concrete oversized POST. -/
theorem post_payload_too_large_witness :
    process_request fsEmpty 0
      [chars "POST /?name=a.txt HTTP/1.1\r\nContent-Length: 200000000\r\n\r\n"] =
      ⟨some (send_error 413 (chars "Payload Too Large")), fsEmpty, [], []⟩ :=
  post_payload_too_large fsEmpty 0
    [chars "POST /?name=a.txt HTTP/1.1\r\nContent-Length: 200000000\r\n\r\n"]
    (chars "POST /?name=a.txt HTTP/1.1\r\nContent-Length: 200000000\r\n\r\n")
    (chars "/?name=a.txt") (chars "HTTP/1.1") (chars "name=a.txt")
    (chars "a.txt") (chars "Content-Length: 200000000\r\n\r\n") []
    (by decide) (by decide) (Or.inl rfl) (by decide) (by decide) (by decide)
    (by decide) (by decide)

/-- C3 counterexample: a POST whose declared body length (200000000)
exceeds the configured maximum (134217728) but whose path is invalid is
answered 400, not 413 — the path/name validation runs before the
payload gate, so the claim as universally stated over all POSTs fails. -/
theorem post_payload_gate_counterexample :
    parseRequestLine
        (chars "POST /bad HTTP/1.1\r\nContent-Length: 200000000\r\n\r\n") =
      some (chars "POST", chars "/bad", chars "HTTP/1.1") ∧
    declaredContentLength
        (chars "POST /bad HTTP/1.1\r\nContent-Length: 200000000\r\n\r\n") =
      some 200000000 ∧
    MAX_REQUEST_SIZE < 200000000 ∧
    (process_request fsEmpty 0
        [chars "POST /bad HTTP/1.1\r\nContent-Length: 200000000\r\n\r\n"]).response.map
      Response.status = some 400 ∧
    (process_request fsEmpty 0
        [chars "POST /bad HTTP/1.1\r\nContent-Length: 200000000\r\n\r\n"]).response ≠
      some (send_error 413 (chars "Payload Too Large")) := by
  decide

/-! ## Upload / retrieve round trip (`handlers.c`)

`handle_post` writes under `SAVE_DIR` while `handle_get` reads under
`SERVE_DIR` — two different directories (`utils.h` lines 9–10). -/

theorem build_serve_path_getElem3 (n : List Char) :
    (build_serve_path n)[3]? = some 'e' := by
  rw [build_serve_path, List.getElem?_append, if_pos (by decide)]
  decide

theorem build_save_path_getElem3 (m : List Char) :
    (build_save_path m)[3]? = some 'a' := by
  rw [build_save_path, List.getElem?_append, if_pos (by decide)]
  decide

theorem serve_path_ne_save_path (n m : List Char) :
    build_serve_path n ≠ build_save_path m := by
  intro h
  have h1 := build_serve_path_getElem3 n
  rw [h, build_save_path_getElem3 m] at h1
  exact absurd h1 (by decide)

theorem serve_path_ne_save_tmp (n m : List Char) :
    build_serve_path n ≠ build_save_path m ++ chars ".tmp" := by
  intro h
  have h2 : (build_save_path m ++ chars ".tmp")[3]? = some 'a' := by
    rw [List.getElem?_append, if_pos ?hlt]
    case hlt =>
      rw [build_save_path, List.length_append, List.length_cons]
      have hs : SAVE_DIR.length = 6 := rfl
      omega
    exact build_save_path_getElem3 m
  have h1 := build_serve_path_getElem3 n
  rw [h, h2] at h1
  exact absurd h1 (by decide)

theorem save_path_ne_tmp (p : List Char) : p ≠ p ++ chars ".tmp" := by
  intro h
  have hl := congrArg List.length h
  rw [List.length_append] at hl
  have h4 : (chars ".tmp").length = 4 := rfl
  omega

/-- C2 counterexample: store `"hi"` under the accepted name `"a.txt"`;
the POST answers 200, but an immediately following GET for the same
name answers 404, not 200 with the content — the upload went to
`./save/a.txt` while the GET looks at `./serve/a.txt`. -/
theorem upload_roundtrip_counterexample :
    (handle_post fsEmpty (chars "a.txt") (chars "hi") 0).response.status = 200 ∧
    (handle_get (handle_post fsEmpty (chars "a.txt") (chars "hi") 0).fs
        (chars "GET /?name=a.txt HTTP/1.1\r\n\r\n") (chars "a.txt")).status
      = 404 := by
  decide

/-- C2 amended: a POST of content `C` under a validator-accepted,
extension-bearing name completes with 200 and stores exactly `C` —
byte-identical — at `SAVE_DIR/name`; but a subsequent GET for the same
name resolves `SERVE_DIR/name`, a different path the POST never wrote,
so with no intervening change (in particular no external compressor
output) the GET returns 404 rather than `C`. -/
theorem upload_then_get (fs : FS) (name body request : List Char) (now : Nat)
    (hlen : body.length ≤ MAX_FILE_SIZE) (hdot : '.' ∈ name)
    (hserve : fs (build_serve_path name) = none) :
    (handle_post fs name body now).response.status = 200 ∧
    (handle_post fs name body now).fs (build_save_path name) =
      some ⟨now, body⟩ ∧
    handle_get (handle_post fs name body now).fs request name =
      send_error 404 (chars "File not found") := by
  have hle : ¬ MAX_FILE_SIZE < body.length := by omega
  have hpost : handle_post fs name body now =
      ⟨send_response 200 (chars "OK") (chars "application/json") []
        (chars "\x7b\"status\":\"success\"\x7d"),
       fsRename (fsWrite fs (build_save_path name ++ chars ".tmp") ⟨now, body⟩)
         (build_save_path name ++ chars ".tmp") (build_save_path name),
       [FsAction.write (build_save_path name ++ chars ".tmp") ⟨now, body⟩,
        FsAction.rename (build_save_path name ++ chars ".tmp")
          (build_save_path name),
        FsAction.chmod (build_save_path name) 0o600]⟩ := by
    simp only [handle_post, if_neg hle, if_pos hdot]
  have hsaved : (handle_post fs name body now).fs (build_save_path name) =
      some ⟨now, body⟩ := by
    rw [hpost]
    simp only [fsRename, fsWrite]
    simp
  have hnone : (handle_post fs name body now).fs (build_serve_path name) =
      none := by
    rw [hpost]
    simp only [fsRename, fsWrite]
    rw [if_neg (serve_path_ne_save_path name name),
      if_neg (serve_path_ne_save_tmp name name),
      if_neg (serve_path_ne_save_tmp name name)]
    exact hserve
  refine ⟨by rw [hpost]; rfl, hsaved, ?_⟩
  simp only [handle_get, hnone]

/-- Witness for C2's amended theorem at the concrete upload of `"hi"`
under `"a.txt"` into the empty filesystem. -/
theorem upload_then_get_witness :
    (handle_post fsEmpty (chars "a.txt") (chars "hi") 0).response.status = 200 ∧
    (handle_post fsEmpty (chars "a.txt") (chars "hi") 0).fs
      (build_save_path (chars "a.txt")) = some ⟨0, chars "hi"⟩ ∧
    handle_get (handle_post fsEmpty (chars "a.txt") (chars "hi") 0).fs
      (chars "GET /?name=a.txt HTTP/1.1\r\n\r\n") (chars "a.txt") =
      send_error 404 (chars "File not found") :=
  upload_then_get fsEmpty (chars "a.txt") (chars "hi")
    (chars "GET /?name=a.txt HTTP/1.1\r\n\r\n") 0
    (by decide) (by decide) rfl

/-! ## Conditional GET (claim C6) -/

theorem containsList_self_append (sub t : List Char) :
    containsList sub (sub ++ t) = true := by
  cases sub with
  | nil =>
    cases t with
    | nil => rfl
    | cons c u => simp [containsList, List.isPrefixOf]
  | cons s ss =>
    rw [List.cons_append]
    simp only [containsList, Bool.or_eq_true]
    refine Or.inl (List.isPrefixOf_iff_prefix.mpr ?_)
    rw [← List.cons_append]
    exact List.prefix_append _ _

theorem containsList_append_left {sub t : List Char} (l : List Char)
    (h : containsList sub t = true) : containsList sub (l ++ t) = true := by
  induction l with
  | nil => simpa using h
  | cons c u ih =>
    rw [List.cons_append]
    simp only [containsList, Bool.or_eq_true]
    exact Or.inr ih

/-- C6: for a GET whose target exists in the serve directory, if the
raw header block contains `"If-None-Match:"` and, at or after that
position, the file's current ETag appears as a substring, the response
is 304 Not Modified, carries `ETag`, `Last-Modified` and
`Cache-Control` headers, and has no message body. -/
theorem get_if_none_match_304 (fs : FS) (request name suffix : List Char)
    (fi : FileInfo)
    (hfile : fs (build_serve_path name) = some fi)
    (hinm : findSuffix (chars "If-None-Match:") request = some suffix)
    (hmatch : containsList (generate_etag fi.mtime fi.content.length) suffix
      = true) :
    handle_get fs request name =
      send_not_modified (generate_etag fi.mtime fi.content.length)
        (format_http_date fi.mtime) ∧
    (handle_get fs request name).status = 304 ∧
    (handle_get fs request name).body = [] ∧
    containsList (chars "ETag: " ++ generate_etag fi.mtime fi.content.length)
      (handle_get fs request name).extraHeaders = true ∧
    containsList (chars "Last-Modified: " ++ format_http_date fi.mtime)
      (handle_get fs request name).extraHeaders = true ∧
    containsList (chars "Cache-Control: public, max-age=31536000, immutable")
      (handle_get fs request name).extraHeaders = true := by
  have heq : handle_get fs request name =
      send_not_modified (generate_etag fi.mtime fi.content.length)
        (format_http_date fi.mtime) := by
    simp only [handle_get, hfile, hinm, hmatch, if_true]
  refine ⟨heq, by rw [heq]; rfl, by rw [heq]; rfl, ?_, ?_, ?_⟩
  · rw [heq]
    have := containsList_self_append
      (chars "ETag: " ++ generate_etag fi.mtime fi.content.length)
      (chars "\r\nLast-Modified: " ++ format_http_date fi.mtime ++
        chars "\r\nCache-Control: public, max-age=31536000, immutable\r\n")
    simpa [send_not_modified, send_response, List.append_assoc] using this
  · rw [heq]
    have := containsList_append_left
      (chars "ETag: " ++ generate_etag fi.mtime fi.content.length ++ chars "\r\n")
      (containsList_self_append
        (chars "Last-Modified: " ++ format_http_date fi.mtime)
        (chars "\r\nCache-Control: public, max-age=31536000, immutable\r\n"))
    simpa [send_not_modified, send_response, List.append_assoc,
      show chars "\r\nLast-Modified: " = chars "\r\n" ++ chars "Last-Modified: "
        from rfl] using this
  · rw [heq]
    have := containsList_append_left
      (chars "ETag: " ++ generate_etag fi.mtime fi.content.length ++
        chars "\r\nLast-Modified: " ++ format_http_date fi.mtime ++ chars "\r\n")
      (containsList_self_append
        (chars "Cache-Control: public, max-age=31536000, immutable")
        (chars "\r\n"))
    simpa [send_not_modified, send_response, List.append_assoc,
      show chars "\r\nCache-Control: public, max-age=31536000, immutable\r\n"
          = chars "\r\n" ++
            (chars "Cache-Control: public, max-age=31536000, immutable" ++
              chars "\r\n")
        from rfl] using this

/-- Witness for C6: the file `"a.txt"` with mtime 0 and content `"hi"`
(ETag `"0-2"`), and a request carrying `If-None-Match: "0-2"`. -/
theorem get_if_none_match_304_witness :
    handle_get
        (fun p => if p = chars "./serve/a.txt" then
          some ⟨0, chars "hi"⟩ else none)
        (chars "GET /?name=a.txt HTTP/1.1\r\nIf-None-Match: \"0-2\"\r\n\r\n")
        (chars "a.txt") =
      send_not_modified (generate_etag 0 (chars "hi").length)
        (format_http_date 0) ∧
    (handle_get
        (fun p => if p = chars "./serve/a.txt" then
          some ⟨0, chars "hi"⟩ else none)
        (chars "GET /?name=a.txt HTTP/1.1\r\nIf-None-Match: \"0-2\"\r\n\r\n")
        (chars "a.txt")).status = 304 ∧
    (handle_get
        (fun p => if p = chars "./serve/a.txt" then
          some ⟨0, chars "hi"⟩ else none)
        (chars "GET /?name=a.txt HTTP/1.1\r\nIf-None-Match: \"0-2\"\r\n\r\n")
        (chars "a.txt")).body = [] ∧
    containsList (chars "ETag: " ++ generate_etag 0 (chars "hi").length)
      ((handle_get
        (fun p => if p = chars "./serve/a.txt" then
          some ⟨0, chars "hi"⟩ else none)
        (chars "GET /?name=a.txt HTTP/1.1\r\nIf-None-Match: \"0-2\"\r\n\r\n")
        (chars "a.txt")).extraHeaders) = true ∧
    containsList (chars "Last-Modified: " ++ format_http_date 0)
      ((handle_get
        (fun p => if p = chars "./serve/a.txt" then
          some ⟨0, chars "hi"⟩ else none)
        (chars "GET /?name=a.txt HTTP/1.1\r\nIf-None-Match: \"0-2\"\r\n\r\n")
        (chars "a.txt")).extraHeaders) = true ∧
    containsList (chars "Cache-Control: public, max-age=31536000, immutable")
      ((handle_get
        (fun p => if p = chars "./serve/a.txt" then
          some ⟨0, chars "hi"⟩ else none)
        (chars "GET /?name=a.txt HTTP/1.1\r\nIf-None-Match: \"0-2\"\r\n\r\n")
        (chars "a.txt")).extraHeaders) = true :=
  get_if_none_match_304
    (fun p => if p = chars "./serve/a.txt" then some ⟨0, chars "hi"⟩ else none)
    (chars "GET /?name=a.txt HTTP/1.1\r\nIf-None-Match: \"0-2\"\r\n\r\n")
    (chars "a.txt") (chars "If-None-Match: \"0-2\"\r\n\r\n") ⟨0, chars "hi"⟩
    (by decide) (by decide) (by decide)

/-! ## Error after commit (claim C10) -/

/-- C10: when a POST supplies a validator-accepted filename containing
no `'.'`, `handle_post` first writes the body to the temporary path,
publishes it by `rename`, and restricts its permissions (`chmod 0600`)
— in that order, as the action trace records — and only then fails the
extension check: the 400 `"Filename must have extension"` response is
returned although the upload's on-disk state change is already
committed (the stored file holds exactly the uploaded body). -/
theorem post_no_extension_after_commit (fs : FS) (name body : List Char)
    (now : Nat)
    (_hvalid : valid_filename name = true) (hnodot : '.' ∉ name)
    (hlen : body.length ≤ MAX_FILE_SIZE) :
    (handle_post fs name body now).response =
      send_error 400 (chars "Filename must have extension") ∧
    (handle_post fs name body now).fs (build_save_path name) =
      some ⟨now, body⟩ ∧
    (handle_post fs name body now).trace =
      [FsAction.write (build_save_path name ++ chars ".tmp") ⟨now, body⟩,
       FsAction.rename (build_save_path name ++ chars ".tmp")
         (build_save_path name),
       FsAction.chmod (build_save_path name) 0o600] := by
  have hle : ¬ MAX_FILE_SIZE < body.length := by omega
  have hpost : handle_post fs name body now =
      ⟨send_error 400 (chars "Filename must have extension"),
       fsRename (fsWrite fs (build_save_path name ++ chars ".tmp") ⟨now, body⟩)
         (build_save_path name ++ chars ".tmp") (build_save_path name),
       [FsAction.write (build_save_path name ++ chars ".tmp") ⟨now, body⟩,
        FsAction.rename (build_save_path name ++ chars ".tmp")
          (build_save_path name),
        FsAction.chmod (build_save_path name) 0o600]⟩ := by
    simp only [handle_post, if_neg hle, if_neg hnodot]
  refine ⟨by rw [hpost], ?_, by rw [hpost]⟩
  rw [hpost]
  simp only [fsRename, fsWrite]
  simp

/-- Witness for C10 at the dotless accepted name `"file"`. -/
theorem post_no_extension_after_commit_witness :
    (handle_post fsEmpty (chars "file") (chars "hi") 0).response =
      send_error 400 (chars "Filename must have extension") ∧
    (handle_post fsEmpty (chars "file") (chars "hi") 0).fs
      (build_save_path (chars "file")) = some ⟨0, chars "hi"⟩ ∧
    (handle_post fsEmpty (chars "file") (chars "hi") 0).trace =
      [FsAction.write (build_save_path (chars "file") ++ chars ".tmp")
        ⟨0, chars "hi"⟩,
       FsAction.rename (build_save_path (chars "file") ++ chars ".tmp")
         (build_save_path (chars "file")),
       FsAction.chmod (build_save_path (chars "file")) 0o600] :=
  post_no_extension_after_commit fsEmpty (chars "file") (chars "hi") 0
    (by decide) (by decide) (by decide)

/-! ## The routed upload endpoint (claim C9)

`main.cpp` line 200 routes `POST /upload` to `handle_upload`, whose
definition is not in the source tree; only its helper functions exist
in `utils.cpp`. Those helpers are embedded from the source below;
`handle_upload` itself is modelled from the spec. -/

/-- `detect_extension_from_magic` from `utils.cpp` lines 181–207:
magic-byte sniffing of JPEG/PNG/WEBP/GIF/PDF/ZIP signatures, default
`".bin"`; bodies shorter than 8 bytes are `".bin"` outright. (For the
WEBP case the C++ code indexes bytes 8–11 under only the `size ≥ 8`
guard; here an absent index simply fails the comparison.) -/
def detect_extension_from_magic (body : List Char) : List Char :=
  if body.length < 8 then chars ".bin"
  else if body[0]?.map Char.toNat = some 0xFF ∧
      body[1]?.map Char.toNat = some 0xD8 then chars ".jpg"
  else if body[0]?.map Char.toNat = some 0x89 ∧
      body[1]?.map Char.toNat = some 0x50 ∧
      body[2]?.map Char.toNat = some 0x4E ∧
      body[3]?.map Char.toNat = some 0x47 then chars ".png"
  else if body[0]? = some 'R' ∧ body[1]? = some 'I' ∧ body[2]? = some 'F' ∧
      body[3]? = some 'F' ∧ body[8]? = some 'W' ∧ body[9]? = some 'E' ∧
      body[10]? = some 'B' ∧ body[11]? = some 'P' then chars ".webp"
  else if body[0]? = some 'G' ∧ body[1]? = some 'I' ∧ body[2]? = some 'F' then
    chars ".gif"
  else if body[0]?.map Char.toNat = some 0x25 ∧
      body[1]?.map Char.toNat = some 0x50 ∧
      body[2]?.map Char.toNat = some 0x44 ∧
      body[3]?.map Char.toNat = some 0x46 then chars ".pdf"
  else if body[0]? = some 'P' ∧ body[1]? = some 'K' ∧
      body[2]?.map Char.toNat = some 0x03 ∧
      body[3]?.map Char.toNat = some 0x04 then chars ".zip"
  else chars ".bin"

/-- `detect_extension_from_content_type` from `utils.cpp` lines 209–219. -/
def detect_extension_from_content_type (ct : List Char) : List Char :=
  if ct = chars "image/jpeg" then chars ".jpg"
  else if ct = chars "image/png" then chars ".png"
  else if ct = chars "image/gif" then chars ".gif"
  else if ct = chars "image/webp" then chars ".webp"
  else if ct = chars "application/pdf" then chars ".pdf"
  else if ct = chars "application/zip" then chars ".zip"
  else if ct = chars "application/octet-stream" then chars ".bin"
  else chars ".bin"

/-- Modelled from the spec: `handle_upload` — the routine `main.cpp`
line 200 invokes for `POST /upload` — is missing from the source tree
(only its call site and its `utils.cpp` helpers are present). Per spec
§6 and §4.6: the body is stored under a generated identifier (passed in
as `uuid`; its generation is randomized) with an extension inferred
from the `Content-Type` header, falling back to magic-byte sniffing of
the body, default `".bin"`; storage uses the temp-write / atomic-rename
pattern; the response is `200 {"name": "<generated>.webp"}`, naming the
compressed derivative the external post-processor will produce. -/
def handle_upload (fs : FS) (request body uuid : List Char) (now : Nat) :
    HandlerResult :=
  if MAX_FILE_SIZE < body.length then
    ⟨send_error 413 (chars "File too large"), fs, []⟩
  else
    let ext :=
      match findSuffix (chars "Content-Type:") request with
      | some s =>
        detect_extension_from_content_type
          (((s.drop 13).dropWhile (· = ' ')).takeWhile
            fun c => !(c = '\r' || c = '\n'))
      | none => detect_extension_from_magic body
    let filepath := build_save_path (uuid ++ ext)
    let temppath := filepath ++ chars ".tmp"
    ⟨send_response 200 (chars "OK") (chars "application/json") []
      (chars "\x7b\"name\": \"" ++ uuid ++ chars ".webp\"\x7d"),
     fsRename (fsWrite fs temppath ⟨now, body⟩) temppath filepath,
     [FsAction.write temppath ⟨now, body⟩,
      FsAction.rename temppath filepath]⟩

/-- C9: every successful upload through `POST /upload` (body within the
size bound; storage succeeding) answers 200 with the JSON body
`{"name": "<generated>.webp"}` — the name of the compressed webp
derivative of the upload — regardless of the request headers, the body
bytes, and the generated identifier. -/
theorem upload_returns_webp_name (fs : FS) (request body uuid : List Char)
    (now : Nat) (hlen : body.length ≤ MAX_FILE_SIZE) :
    (handle_upload fs request body uuid now).response.status = 200 ∧
    (handle_upload fs request body uuid now).response.contentType =
      chars "application/json" ∧
    (handle_upload fs request body uuid now).response.body =
      chars "\x7b\"name\": \"" ++ uuid ++ chars ".webp\"\x7d" := by
  have hle : ¬ MAX_FILE_SIZE < body.length := by omega
  simp only [handle_upload, if_neg hle]
  exact ⟨rfl, rfl, rfl⟩

/-- Witness for C9 at a concrete JPEG-flavoured upload. -/
theorem upload_returns_webp_name_witness :
    (handle_upload fsEmpty
      (chars "POST /upload HTTP/1.1\r\nContent-Type: image/jpeg\r\n\r\n")
      (chars "xx") (chars "deadbeef") 0).response.status = 200 ∧
    (handle_upload fsEmpty
      (chars "POST /upload HTTP/1.1\r\nContent-Type: image/jpeg\r\n\r\n")
      (chars "xx") (chars "deadbeef") 0).response.contentType =
      chars "application/json" ∧
    (handle_upload fsEmpty
      (chars "POST /upload HTTP/1.1\r\nContent-Type: image/jpeg\r\n\r\n")
      (chars "xx") (chars "deadbeef") 0).response.body =
      chars "\x7b\"name\": \"" ++ chars "deadbeef" ++ chars ".webp\"\x7d" :=
  upload_returns_webp_name fsEmpty
    (chars "POST /upload HTTP/1.1\r\nContent-Type: image/jpeg\r\n\r\n")
    (chars "xx") (chars "deadbeef") 0 (by decide)

end ImageCurry
